import Mathlib

/-!
Verification development for the span-rendering, normalization, grouping and
statistics code of `src/grammar_analyzer.py`.

Python values are embedded as follows: the source text is a `List Char`
(Python string indexing/slicing is by character), character offsets are `Int`
(Python integers; the renderers filters compare them with `0` and with the
text length), a possibly-missing offset is an `Option Int`, and the
normalized extraction dictionaries produced by `format_extractions`
(keys 类型 / 文本 / 属性 / 位置.开始 / 位置.结束) are the structure `SpanRec`.
Python dicts used as string-to-string attribute maps are association lists
in insertion order; `dict` membership and `dict.get` are `List.lookup`.

The module defines `create_colored_text` twice (lines 462 and 677) and
`create_simple_html_visualization` twice (lines 278 and 493, identical
bodies); in Python the later definition wins, so the effective
`create_colored_text` is the one at lines 677-767 and it is the one
embedded here.
-/

/-- A `(start_pos, end_pos)` character interval attached to a raw extraction. -/
structure CharSpan where
  start_pos : Int
  end_pos : Int
deriving DecidableEq, Repr

/-- A raw extraction object as returned by the extraction service
(`lx.data.Extraction`): class tag, literal text, attribute mapping and an
optional character interval. -/
structure Extraction where
  extraction_class : String
  extraction_text : String
  attributes : List (String × String)
  char_interval : Option CharSpan
deriving DecidableEq, Repr

/-- The annotated document returned by the extraction service: source text
plus the ordered list of extractions. -/
structure AnnotatedDocument where
  text : List Char
  extractions : List Extraction
deriving DecidableEq, Repr

/-- The normalized record built by `GrammarAnalyzer.format_extractions`
(lines 197-205): the dict `{类型, 文本, 属性, 位置: {开始, 结束}}`.  The two
offsets are `Option Int` because the renderers re-check them against `None`
(lines 711 and 578). -/
structure SpanRec where
  cls : String
  txt : String
  attrs : List (String × String)
  start? : Option Int
  end? : Option Int
deriving DecidableEq, Repr

/-- `e["位置"]["开始"]` as read inside the renderer loops; the loops only run
on records whose offsets passed an `is not None` filter, so the `0` default
is never reached there. -/
def startVal (r : SpanRec) : Int := r.start?.getD 0

/-- `e["位置"]["结束"]` as read inside the renderer loops. -/
def endVal (r : SpanRec) : Int := r.end?.getD 0

/-- The filter of `create_colored_text` (lines 709-713): both offsets
present, `start >= 0` and `end > start`. -/
def ccValid (r : SpanRec) : Bool :=
  match r.start?, r.end? with
  | some s, some e => decide (0 ≤ s) && decide (s < e)
  | _, _ => false

/-- The in-loop skip condition of `create_colored_text` (line 734), stated
positively: the span is rendered iff
`¬ (start >= len(text) or end > len(text) or start >= end)`. -/
def ccEmit (len : Int) (r : SpanRec) : Bool :=
  decide (startVal r < len) && decide (endVal r ≤ len) && decide (startVal r < endVal r)

/-- The combined validity condition under which `create_colored_text`
actually renders a span: offsets present, `0 ≤ start < end ≤ length text`. -/
def fullValid (len : Int) (r : SpanRec) : Bool :=
  match r.start?, r.end? with
  | some s, some e => decide (0 ≤ s) && decide (s < e) && decide (e ≤ len)
  | _, _ => false

/-- Two spans occupy non-overlapping character ranges. -/
def disjointSpans (a b : SpanRec) : Prop :=
  endVal a ≤ startVal b ∨ endVal b ≤ startVal a

instance : DecidableRel disjointSpans :=
  fun a b => inferInstanceAs (Decidable (_ ∨ _))

/-- The sort key of the `sorted(..., key=lambda x: x["位置"]["开始"])` calls
(lines 720-723 and 583).  Python `sorted` is a stable sort; so is
`List.insertionSort` with this reflexive-total relation (an element is
inserted strictly before the first element of greater-or-equal key only if
its own key is smaller or it came earlier), so the two agree as functions. -/
def byStart (a b : SpanRec) : Prop := startVal a ≤ startVal b

instance : DecidableRel byStart :=
  fun a b => inferInstanceAs (Decidable (_ ≤ _))

instance : IsTotal SpanRec byStart := ⟨fun _ _ => Int.le_total _ _⟩

instance : IsTrans SpanRec byStart := ⟨fun _ _ _ hab hbc => le_trans hab hbc⟩

/-- Python slice `text[s:e]` for `0 ≤ s`, as used by both renderer loops
(their filters guarantee the bounds that make `toNat` exact). -/
def pySlice (l : List Char) (s e : Int) : List Char :=
  (l.take e.toNat).drop s.toNat

/-- One output fragment of a renderer: a plain (unhighlighted) run, or a
highlighted run carrying its base text, class tag and composed tooltip. -/
inductive Frag where
  | plain : List Char → Frag
  | hl : List Char → String → String → Frag
deriving DecidableEq, Repr

/-- The base text content of a fragment, ignoring markup. -/
def baseText : Frag → List Char
  | Frag.plain s => s
  | Frag.hl s _ _ => s

/-- Concatenation of the base text of a fragment list. -/
def baseConcat : List Frag → List Char
  | [] => []
  | f :: fs => baseText f ++ baseConcat fs

/-- The highlighted fragments of a fragment list, as (base text, class tag)
pairs in emission order. -/
def highlights (fs : List Frag) : List (List Char × String) :=
  fs.filterMap fun f =>
    match f with
    | Frag.plain _ => none
    | Frag.hl s c _ => some (s, c)

/-- The default `color_map` of `create_colored_text` (lines 693-706), used
when the caller passes `None`. -/
def defaultColorMap : List (String × String) :=
  [("subject", "#FF6B6B"), ("verb", "#4ECDC4"), ("object", "#45B7D1"),
   ("direct_object", "#45B7D1"), ("indirect_object", "#95D5B2"),
   ("adverbial", "#FFA07A"), ("phrasal_verb", "#98D8C8"),
   ("key_word", "#F7DC6F"), ("idiom", "#DDA15E"),
   ("attributive", "#BC6C25"), ("complement", "#A8DADC")]

/-- `color_map.get(extraction["类型"], "#CCCCCC")` (line 742). -/
def colorOf (colorMap : List (String × String)) (cls : String) : String :=
  (colorMap.lookup cls).getD "#CCCCCC"

/-- The tooltip HTML built by `create_colored_text` (lines 745-751):
a strong class line, then, when the attribute dict is non-empty, an `<hr>`
and one `<div>` per attribute, joined with `"".join`. -/
def ccTooltip (r : SpanRec) : String :=
  let ls := ["<strong>" ++ r.cls ++ "</strong>"]
  let ls := if r.attrs.isEmpty then ls
    else ls ++
      ["<hr style=\x27margin: 5px 0; border: 0; border-top: 1px solid rgba(255,255,255,0.3);\x27>"] ++
      r.attrs.map (fun kv =>
        "<div><span style=\x27opacity:0.8\x27>" ++ kv.1 ++ ":</span> " ++ kv.2 ++ "</div>")
  String.join ls

/-- The fragment-emission loop of `create_colored_text` (lines 727-765) over
the already-sorted list, carrying the cursor `last_pos`: skip a span failing
the line-734 check, emit the plain gap `text[last_pos:start]` when
`start > last_pos`, emit the highlighted run `text[start:end]`, advance
`last_pos = max(last_pos, end)` (line 761), and emit the trailing
`text[last_pos:]` after the loop when `last_pos < len(text)`. -/
def ccLoop (text : List Char) : Int → List SpanRec → List Frag
  | lastPos, [] =>
      if lastPos < (text.length : Int) then [Frag.plain (text.drop lastPos.toNat)] else []
  | lastPos, r :: rest =>
      if ccEmit (text.length : Int) r then
        (if startVal r > lastPos then [Frag.plain (pySlice text lastPos (startVal r))] else [])
          ++ [Frag.hl (pySlice text (startVal r) (endVal r)) r.cls (ccTooltip r)]
          ++ ccLoop text (max lastPos (endVal r)) rest
      else
        ccLoop text lastPos rest

/-- The value of the cursor `last_pos` of `ccLoop` after the whole list has
been processed (the fragment list and this cursor are the two components of
the same loop state). -/
def ccLoopLastPos (text : List Char) : Int → List SpanRec → Int
  | lastPos, [] => lastPos
  | lastPos, r :: rest =>
      if ccEmit (text.length : Int) r then
        ccLoopLastPos text (max lastPos (endVal r)) rest
      else
        ccLoopLastPos text lastPos rest

/-- The fragment sequence emitted by `create_colored_text` (lines 708-767):
filter, early `return text` when nothing is valid (modelled as one plain
fragment covering the text, which renders to exactly that string), sort by
start offset, then run the loop from cursor `0`. -/
def ccFragments (text : List Char) (extractions : List SpanRec) : List Frag :=
  let valid := extractions.filter ccValid
  if valid.isEmpty then [Frag.plain text]
  else ccLoop text 0 (List.insertionSort byStart valid)

/-- The markup text of one fragment of `create_colored_text`: a plain run is
embedded verbatim; a highlighted run becomes the `tooltip-wrapper` span of
lines 753-759 (f-string with the resolved color, the raw slice and the
tooltip HTML). -/
def renderFrag (colorMap : List (String × String)) : Frag → String
  | Frag.plain s => String.mk s
  | Frag.hl s cls tooltip =>
      "<span class=\"tooltip-wrapper\" style=\"background-color: " ++
        colorOf colorMap cls ++ "; padding: 2px 4px; border-radius: 3px;\">" ++
        String.mk s ++
        "<span class=\"tooltip-text\">" ++ tooltip ++ "</span></span>"

/-- `"".join(html_parts)`. -/
def renderAll (colorMap : List (String × String)) : List Frag → String
  | [] => ""
  | f :: fs => renderFrag colorMap f ++ renderAll colorMap fs

/-- `create_colored_text(text, extractions, color_map=None)`
(lines 677-767) with the default color map (the only way the repository
calls it).  The early `return text` of line 717 coincides with rendering
the single plain fragment produced by `ccFragments` in that case. -/
def create_colored_text (text : List Char) (extractions : List SpanRec) : String :=
  renderAll defaultColorMap (ccFragments text extractions)

/-- The filter of `create_simple_html_visualization` (lines 576-580): both
offsets present and `0 <= start < end <= len(text)`. -/
def svValid (len : Int) (r : SpanRec) : Bool :=
  match r.start?, r.end? with
  | some s, some e => decide (0 ≤ s) && decide (s < e) && decide (e ≤ len)
  | _, _ => false

/-- The `tooltip_parts` list of `create_simple_html_visualization`
(lines 599-606): the class tag, then a 语法功能 line when `role` is present,
a 含义 line when `meaning` is present, and a 类型 line when `type` is present
and differs from the class tag. -/
def simpleTooltipParts (cls : String) (attrs : List (String × String)) : List String :=
  let p := [cls]
  let p := match attrs.lookup "role" with
    | some v => p ++ ["语法功能: " ++ v]
    | none => p
  let p := match attrs.lookup "meaning" with
    | some v => p ++ ["含义: " ++ v]
    | none => p
  let p := match attrs.lookup "type" with
    | some v => if v ≠ cls then p ++ ["类型: " ++ v] else p
    | none => p
  p

/-- `" | ".join(tooltip_parts)` (line 607). -/
def simpleTooltip (cls : String) (attrs : List (String × String)) : String :=
  String.intercalate " | " (simpleTooltipParts cls attrs)

/-- The fragment-emission loop of `create_simple_html_visualization`
(lines 584-622): no in-loop skip (the filter already checked
`end <= len(text)`), plain gap when `start > last_pos`, one highlighted run
per span, and — unlike `create_colored_text` — the cursor update of line 618
is `last_pos = end` with no `max`. -/
def svLoop (text : List Char) : Int → List SpanRec → List Frag
  | lastPos, [] =>
      if lastPos < (text.length : Int) then [Frag.plain (text.drop lastPos.toNat)] else []
  | lastPos, r :: rest =>
      (if startVal r > lastPos then [Frag.plain (pySlice text lastPos (startVal r))] else [])
        ++ [Frag.hl (pySlice text (startVal r) (endVal r)) r.cls (simpleTooltip r.cls r.attrs)]
        ++ svLoop text (endVal r) rest

/-- The annotated-text fragments of `create_simple_html_visualization`
(lines 576-624, the `text-container` content; the surrounding legend,
detail cards and script are static markup around this sequence). -/
def svFragments (text : List Char) (extractions : List SpanRec) : List Frag :=
  let valid := extractions.filter (svValid (text.length : Int))
  if valid.isEmpty then [Frag.plain text]
  else svLoop text 0 (List.insertionSort byStart valid)

/-- Modelled from the spec: the cursor policy that claim C3 asserts for
`create_simple_html_visualization`, namely that after each span the cursor
is advanced as `last_pos = max(last_pos, span.end)`.  Identical to `svLoop`
except for that one update; used to compare the asserted policy with the
code, which writes `last_pos = end`. -/
def svLoopMaxAdvance (text : List Char) : Int → List SpanRec → List Frag
  | lastPos, [] =>
      if lastPos < (text.length : Int) then [Frag.plain (text.drop lastPos.toNat)] else []
  | lastPos, r :: rest =>
      (if startVal r > lastPos then [Frag.plain (pySlice text lastPos (startVal r))] else [])
        ++ [Frag.hl (pySlice text (startVal r) (endVal r)) r.cls (simpleTooltip r.cls r.attrs)]
        ++ svLoopMaxAdvance text (max lastPos (endVal r)) rest

/-- Modelled from the spec: `svFragments` under the claimed max-advance
cursor policy. -/
def svFragmentsMaxAdvance (text : List Char) (extractions : List SpanRec) : List Frag :=
  let valid := extractions.filter (svValid (text.length : Int))
  if valid.isEmpty then [Frag.plain text]
  else svLoopMaxAdvance text 0 (List.insertionSort byStart valid)

/-- One step of `GrammarAnalyzer.format_extractions` (lines 192-205): when
`char_interval` is absent both offsets default to `0`. -/
def formatOne (e : Extraction) : SpanRec :=
  { cls := e.extraction_class
    txt := e.extraction_text
    attrs := e.attributes
    start? := some (match e.char_interval with
      | some ci => ci.start_pos
      | none => 0)
    end? := some (match e.char_interval with
      | some ci => ci.end_pos
      | none => 0) }

/-- `GrammarAnalyzer.format_extractions` (lines 177-207). -/
def format_extractions (result : AnnotatedDocument) : List SpanRec :=
  result.extractions.map formatOne

/-- `type_counts[t] = type_counts.get(t, 0) + 1` on an insertion-ordered
dict (lines 225-228). -/
def bumpCount (m : List (String × Nat)) (k : String) : List (String × Nat) :=
  match m with
  | [] => [(k, 1)]
  | (k₀, n) :: rest => if k₀ == k then (k₀, n + 1) :: rest else (k₀, n) :: bumpCount rest k

/-- The per-class counts of `get_statistics` (lines 224-228). -/
def typeCountsOf (es : List Extraction) : List (String × Nat) :=
  es.foldl (fun m e => bumpCount m e.extraction_class) []

/-- The `total_chars` accumulation of `get_statistics` (lines 231-235):
each extraction contributes `end_pos - start_pos` when its interval is
present and `0 - 0` otherwise. -/
def totalChars (es : List Extraction) : Int :=
  es.foldl (fun t e => t + (match e.char_interval with
    | some ci => ci.end_pos - ci.start_pos
    | none => 0)) 0

/-- The sum the spec describes for the coverage numerator: `(end − start)`
summed over exactly the spans whose offsets are present. -/
def specCoverSum (es : List Extraction) : Int :=
  (es.filterMap (fun e => e.char_interval.map (fun ci => ci.end_pos - ci.start_pos))).sum

/-- Round the positive rational `n / d` to an IEEE-754 binary64 value
`m * 2^e` with `2^52 ≤ m < 2^53`, round-to-nearest ties-to-even: scale the
fraction into the mantissa window, then round the 53-bit mantissa half-even.
The fuel bounds the scaling (5000 doublings cover every value a binary64 can
carry); normal-range values only — Python raises `OverflowError` on an
integer quotient beyond `~1.8e308` and underflows below `~1e-308`, magnitudes
no realistic document can produce, so they are outside the modelled range. -/
def normPos : Nat → Nat → Nat → Int → (Nat × Int)
  | 0, _, _, _ => (0, 0)
  | fuel + 1, n, d, e =>
    if n < 4503599627370496 * d then normPos fuel (2 * n) d (e - 1)
    else if 9007199254740992 * d ≤ n then normPos fuel n (2 * d) (e + 1)
    else
      let m := n / d
      let r := n % d
      let m' := if 2 * r < d then m
        else if d < 2 * r then m + 1
        else if m % 2 = 0 then m else m + 1
      if m' = 9007199254740992 then (4503599627370496, e + 1) else (m', e)

/-- Python `a / b` on integers (`b > 0`): true division producing the
correctly rounded binary64 quotient, represented as a signed mantissa and a
binary exponent (`(0, 0)` is `0.0`). -/
def floatDivInt (a : Int) (b : Nat) : Int × Int :=
  if a = 0 then (0, 0)
  else
    let p := normPos 5000 a.natAbs b 0
    (if a < 0 then -(p.1 : Int) else (p.1 : Int), p.2)

/-- Python `x * 100` on a binary64 `x`: the product of the mantissa with
`100` is exact, then renormalized with the same round-to-nearest-even. -/
def floatMul100 : Int × Int → Int × Int
  | (m, e) =>
    if m = 0 then (0, 0)
    else
      let p := normPos 5000 (m.natAbs * 100) 1 e
      (if m < 0 then -(p.1 : Int) else (p.1 : Int), p.2)

/-- Python `f"{x:.1f}"` on the binary64 `m * 2^e`: the exact binary value is
rounded to one decimal place with ties-to-even, and the sign of the float
(not of the rounded digits) decides the leading minus, so a small negative
value prints `-0.0` as CPython does. -/
def fmtDouble1 : Int × Int → String
  | (m, e) =>
    let a : Int := m * 10
    let v : Int :=
      if 0 ≤ e then a * (2 ^ e.toNat)
      else
        let p : Int := 2 ^ (-e).toNat
        let f := a.fdiv p
        let r := a - f * p
        if 2 * r < p then f else if p < 2 * r then f + 1
        else if f % 2 = 0 then f else f + 1
    let mag := v.natAbs
    (if m < 0 then "-" else "") ++ toString (mag / 10) ++ "." ++ toString (mag % 10)

/-- The dictionary returned by `GrammarAnalyzer.get_statistics`
(lines 239-244): 总提取数, 类型统计, 原文长度, 覆盖率. -/
structure Stats where
  total : Nat
  typeCounts : List (String × Nat)
  textLength : Nat
  coverage : String
deriving DecidableEq, Repr

/-- `GrammarAnalyzer.get_statistics` (lines 209-244).  The coverage string
is `f"{total_chars / len(result.text) * 100:.1f}%"` when the text is
non-empty and `"0%"` otherwise (line 237), following Python arithmetic
exactly: the integer division rounds to a binary64, the multiplication by
100 rounds again, and `.1f` rounds the exact binary value to one decimal
(so for example 23 covered characters out of 80 print `28.7%`, not the
exact-rational `28.8%`, because `23/80*100` is the double
`28.749999999999996`). -/
def get_statistics (result : AnnotatedDocument) : Stats :=
  { total := result.extractions.length
    typeCounts := typeCountsOf result.extractions
    textLength := result.text.length
    coverage :=
      if result.text.length > 0 then
        fmtDouble1 (floatMul100
          (floatDivInt (totalChars result.extractions) result.text.length)) ++ "%"
      else "0%" }

/-- `grouped[key].append(extraction)` preceded by `grouped[key] = []` when
the key is new, on an insertion-ordered dict (lines 271-273). -/
def groupInsert (m : List (String × List SpanRec)) (k : String) (e : SpanRec) :
    List (String × List SpanRec) :=
  match m with
  | [] => [(k, [e])]
  | (k₀, l) :: rest =>
      if k₀ == k then (k₀, l ++ [e]) :: rest else (k₀, l) :: groupInsert rest k e

/-- The key selection of `format_result_for_display` (lines 263-269):
类型 groups by class, 难度 by `attributes.get("level", "未知")`, anything
else by the single bucket 全部. -/
def groupKey (group_by : String) (e : SpanRec) : String :=
  if group_by = "类型" then e.cls
  else if group_by = "难度" then (e.attrs.lookup "level").getD "未知"
  else "全部"

/-- `format_result_for_display(extractions, group_by)` (lines 247-275),
producing the insertion-ordered grouped dict. -/
def format_result_for_display (extractions : List SpanRec) (group_by : String) :
    List (String × List SpanRec) :=
  extractions.foldl (fun m e => groupInsert m (groupKey group_by e) e) []

/-- Reading `grouped[k]` on the insertion-ordered dict built by
`format_result_for_display` (`none` when the key is absent). -/
def dictGet : List (String × List SpanRec) → String → Option (List SpanRec)
  | [], _ => none
  | (k₀, v) :: rest, k => if k₀ == k then some v else dictGet rest k

/-! Concrete inputs used by the counterexample and witness theorems. -/

/-- A two-character text. -/
def twoCharText : List Char := ['a', 'b']

/-- A span covering `[0,2)` of `twoCharText`, class `verb`. -/
def dupSpanA : SpanRec := ⟨"verb", "ab", [], some 0, some 2⟩

/-- The same range annotated a second time, class `phrasal_verb`. -/
def dupSpanB : SpanRec := ⟨"phrasal_verb", "ab", [], some 0, some 2⟩

/-- A five-character text. -/
def fiveCharText : List Char := ['a', 'b', 'c', 'd', 'e']

/-- A span covering `[0,4)` of `fiveCharText`. -/
def wideSpan : SpanRec := ⟨"verb", "abcd", [], some 0, some 4⟩

/-- A span covering `[1,2)`, nested inside `wideSpan`. -/
def nestedSpan : SpanRec := ⟨"subject", "b", [], some 1, some 2⟩

/-- A three-character text containing a markup-significant `&`. -/
def ampText : List Char := ['a', '&', 'b']

/-- A valid span covering all of `ampText`. -/
def ampSpan : SpanRec := ⟨"verb", "a&b", [], some 0, some 3⟩

/-- A raw extraction with no `char_interval`. -/
def noIntervalExtraction : Extraction :=
  ⟨"verb", "looked up", [("role", "predicate")], none⟩

/-- A document holding `noIntervalExtraction`. -/
def noIntervalDoc : AnnotatedDocument :=
  ⟨['h', 'i'], [noIntervalExtraction]⟩

/-- A ten-character document with a single extraction spanning `[0,5)`,
the coverage example of the spec. -/
def coverageExampleDoc : AnnotatedDocument :=
  ⟨['0', '1', '2', '3', '4', '5', '6', '7', '8', '9'],
   [⟨"verb", "01234", [], some ⟨0, 5⟩⟩]⟩

/-- A document with empty source text. -/
def emptyTextDoc : AnnotatedDocument :=
  ⟨[], [⟨"verb", "x", [], some ⟨0, 1⟩⟩]⟩

/-- An eighty-character document with one extraction spanning `[0,23)`:
the exact ratio is 28.75% but the program computes the double
`28.749999999999996` and prints `28.7%`. -/
def ratioExampleDoc : AnnotatedDocument :=
  ⟨List.replicate 80 'x', [⟨"verb", "y", [], some ⟨0, 23⟩⟩]⟩

/-- A record used by grouping witnesses. -/
def plainRec : SpanRec := ⟨"verb", "ran", [], some 0, some 3⟩

/-! Helper lemmas about slices, validity predicates and fragment lists. -/

theorem pySlice_self (l : List Char) (a : Int) : pySlice l a a = [] := by
  unfold pySlice
  apply List.drop_eq_nil_of_le
  rw [List.length_take]
  omega

theorem pySlice_full (l : List Char) : pySlice l 0 ((l.length : Int)) = l := by
  unfold pySlice
  simp

theorem drop_eq_pySlice (l : List Char) (a : Int) :
    l.drop a.toNat = pySlice l a (l.length : Int) := by
  unfold pySlice
  simp

theorem pySlice_append (l : List Char) (a m b : Int)
    (h0 : 0 ≤ a) (ham : a ≤ m) (hmb : m ≤ b) (hml : m ≤ (l.length : Int)) :
    pySlice l a m ++ pySlice l m b = pySlice l a b := by
  unfold pySlice
  have h1 : l.take m.toNat = (l.take b.toNat).take m.toNat := by
    rw [List.take_take]
    congr 1
    omega
  have h2 : a.toNat ≤ ((l.take b.toNat).take m.toNat).length := by
    rw [List.length_take, List.length_take]
    omega
  conv_rhs => rw [← List.take_append_drop m.toNat (l.take b.toNat)]
  rw [List.drop_append_of_le_length h2, ← h1]

theorem ccEmit_iff (len : Int) (r : SpanRec) :
    ccEmit len r = true ↔ startVal r < len ∧ endVal r ≤ len ∧ startVal r < endVal r := by
  simp [ccEmit, and_assoc]

theorem ccValid_nonneg {r : SpanRec} (h : ccValid r = true) : 0 ≤ startVal r := by
  rcases hs : r.start? with _ | s <;> rcases he : r.end? with _ | e <;>
    simp [ccValid, hs, he] at h <;> simp [startVal, hs]
  omega

theorem fullValid_eq (len : Int) (r : SpanRec) :
    fullValid len r = (ccValid r && ccEmit len r) := by
  rcases hs : r.start? with _ | s <;> rcases he : r.end? with _ | e <;>
    simp [fullValid, ccValid, ccEmit, startVal, endVal, hs, he]
  simp only [Bool.and_assoc, ← Bool.decide_and]
  exact decide_eq_decide.mpr (by omega)

theorem disjointSpans_symmetric : Symmetric disjointSpans :=
  fun _ _ h => Or.symm h

theorem baseConcat_append (xs ys : List Frag) :
    baseConcat (xs ++ ys) = baseConcat xs ++ baseConcat ys := by
  induction xs with
  | nil => rfl
  | cons f fs ih => simp [baseConcat, ih]

theorem highlights_append (xs ys : List Frag) :
    highlights (xs ++ ys) = highlights xs ++ highlights ys := by
  simp [highlights, List.filterMap_append]

theorem highlights_ccLoop (text : List Char) (l : List SpanRec) :
    ∀ lp : Int, highlights (ccLoop text lp l) =
      (l.filter (ccEmit (text.length : Int))).map
        (fun r => (pySlice text (startVal r) (endVal r), r.cls)) := by
  induction l with
  | nil =>
    intro lp
    simp only [ccLoop]
    by_cases h : lp < (text.length : Int) <;> simp [h, highlights]
  | cons r rest ih =>
    intro lp
    by_cases hr : ccEmit (text.length : Int) r = true
    · simp only [ccLoop, hr, if_true, highlights_append, ih, List.filter_cons, List.map_cons]
      by_cases hgap : startVal r > lp <;> simp [hgap, highlights, hr]
    · simp only [ccLoop, hr]
      simp only [Bool.false_eq_true, if_false, ih, List.filter_cons, hr]

theorem ccLoop_all_skip (text : List Char) (l : List SpanRec)
    (h : ∀ r ∈ l, ccEmit (text.length : Int) r = false) :
    ∀ lp : Int, ccLoop text lp l = ccLoop text lp [] := by
  induction l with
  | nil => intro lp; rfl
  | cons r rest ih =>
    intro lp
    have hr := h r (List.mem_cons_self r rest)
    simp only [ccLoop, hr, Bool.false_eq_true, if_false]
    exact ih (fun f hf => h f (List.mem_cons_of_mem r hf)) lp

theorem ccLoopLastPos_mono (text : List Char) (l : List SpanRec) :
    ∀ lp : Int, lp ≤ ccLoopLastPos text lp l := by
  induction l with
  | nil => intro lp; exact le_refl lp
  | cons r rest ih =>
    intro lp
    by_cases hr : ccEmit (text.length : Int) r = true
    · simp only [ccLoopLastPos, hr, if_true]
      exact le_trans (le_max_left lp (endVal r)) (ih (max lp (endVal r)))
    · simp only [ccLoopLastPos, hr, Bool.false_eq_true, if_false]
      exact ih lp

theorem ccLoop_base_of_disjoint (text : List Char) (l : List SpanRec) :
    ∀ lp : Int, 0 ≤ lp → lp ≤ (text.length : Int) →
    (∀ r ∈ l, ccEmit (text.length : Int) r = true → lp ≤ startVal r) →
    List.Sorted byStart l →
    (l.filter (ccEmit (text.length : Int))).Pairwise disjointSpans →
    baseConcat (ccLoop text lp l) = pySlice text lp (text.length : Int) := by
  induction l with
  | nil =>
    intro lp h0 hlen _ _ _
    simp only [ccLoop]
    by_cases h : lp < (text.length : Int)
    · rw [if_pos h]
      simp [baseConcat, baseText, drop_eq_pySlice]
    · rw [if_neg h]
      have hlp : lp = (text.length : Int) := le_antisymm hlen (not_lt.mp h)
      rw [hlp, pySlice_self]
      rfl
  | cons r rest ih =>
    intro lp h0 hlen hfirst hsorted hdisj
    by_cases hr : ccEmit (text.length : Int) r = true
    · have hs_lp : lp ≤ startVal r := hfirst r (List.mem_cons_self r rest) hr
      obtain ⟨hsl, hel, hse⟩ := (ccEmit_iff (text.length : Int) r).mp hr
      have hmax : max lp (endVal r) = endVal r := max_eq_right (by omega)
      have hfilter : (r :: rest).filter (ccEmit (text.length : Int)) =
          r :: rest.filter (ccEmit (text.length : Int)) := by
        simp [List.filter_cons, hr]
      rw [hfilter] at hdisj
      have hdr : ∀ f ∈ rest.filter (ccEmit (text.length : Int)), disjointSpans r f :=
        (List.pairwise_cons.mp hdisj).1
      have hfirst' : ∀ f ∈ rest, ccEmit (text.length : Int) f = true → endVal r ≤ startVal f := by
        intro f hf hfe
        have hsf : byStart r f := (List.sorted_cons.mp hsorted).1 f hf
        have hd : disjointSpans r f := hdr f (List.mem_filter.mpr ⟨hf, hfe⟩)
        obtain ⟨_, _, hfe3⟩ := (ccEmit_iff (text.length : Int) f).mp hfe
        unfold byStart at hsf
        rcases hd with h | h
        · exact h
        · omega
      have ihr := ih (endVal r) (by omega) (by omega) hfirst'
        (List.sorted_cons.mp hsorted).2 ((List.pairwise_cons.mp hdisj).2)
      simp only [ccLoop, hr, if_true, hmax, baseConcat_append, ihr]
      by_cases hgap : startVal r > lp
      · rw [if_pos hgap]
        simp only [baseConcat, baseText, List.append_nil]
        rw [List.append_assoc,
          pySlice_append text (startVal r) (endVal r) (text.length : Int)
            (by omega) (by omega) (by omega) (by omega),
          pySlice_append text lp (startVal r) (text.length : Int)
            (by omega) (by omega) (by omega) (by omega)]
      · rw [if_neg hgap]
        have hslp : startVal r = lp := by omega
        simp only [baseConcat, baseText, List.append_nil, List.nil_append, hslp]
        rw [pySlice_append text lp (endVal r) (text.length : Int)
          (by omega) (by omega) (by omega) (by omega)]
    · simp only [ccLoop, hr, Bool.false_eq_true, if_false]
      have hfilter : (r :: rest).filter (ccEmit (text.length : Int)) =
          rest.filter (ccEmit (text.length : Int)) := by
        simp [List.filter_cons, hr]
      rw [hfilter] at hdisj
      exact ih lp h0 hlen (fun f hf => hfirst f (List.mem_cons_of_mem r hf))
        (List.sorted_cons.mp hsorted).2 hdisj

theorem filter_ccValid_filter_ccEmit (es : List SpanRec) (len : Int) :
    (es.filter ccValid).filter (ccEmit len) = es.filter (fullValid len) := by
  rw [List.filter_filter]
  exact List.filter_congr (fun r _ => by rw [fullValid_eq, Bool.and_comm])

/-- Claim C1, counterexample: over the text `"ab"`, two duplicate valid spans
covering `[0,2)` make `create_colored_text` emit the base text `"abab"` —
the characters of the duplicated range appear twice, so concatenating the
base text of the emitted fragments does not reproduce the source text. -/
theorem C1_counterexample :
    baseConcat (ccFragments twoCharText [dupSpanA, dupSpanB]) ≠ twoCharText := by
  decide

/-- Claim C1 (amended): when the spans that pass the full validity check are
pairwise non-overlapping, concatenating the base text content of every
fragment emitted by `create_colored_text` reproduces the original source
text exactly, with no character omitted and no character duplicated.  (With
overlapping or duplicate valid spans the overlapped characters are emitted
once per covering span, as the counterexample shows.) -/
theorem C1_claim (text : List Char) (es : List SpanRec)
    (hdisj : (es.filter (fullValid (text.length : Int))).Pairwise disjointSpans) :
    baseConcat (ccFragments text es) = text := by
  unfold ccFragments
  by_cases hv : (es.filter ccValid).isEmpty
  · rw [if_pos hv]
    simp [baseConcat, baseText]
  · rw [if_neg hv]
    have hperm := (List.perm_insertionSort byStart (es.filter ccValid)).filter
      (ccEmit (text.length : Int))
    rw [filter_ccValid_filter_ccEmit] at hperm
    have hpair : ((List.insertionSort byStart (es.filter ccValid)).filter
        (ccEmit (text.length : Int))).Pairwise disjointSpans :=
      (hperm.pairwise_iff @disjointSpans_symmetric).mpr hdisj
    have hres := ccLoop_base_of_disjoint text
      (List.insertionSort byStart (es.filter ccValid)) 0 (le_refl 0) (by omega)
      (fun r hr _ => ccValid_nonneg
        (List.of_mem_filter ((List.mem_insertionSort byStart).mp hr)))
      (List.sorted_insertionSort byStart _) hpair
    rw [hres, pySlice_full]

/-- Claim C1, witness instance of the amended theorem: a single valid span
over `"ab"` is trivially pairwise disjoint, and the renderer reproduces the
text. -/
theorem C1_witness :
    (([dupSpanA].filter (fullValid (twoCharText.length : Int))).Pairwise disjointSpans)
    ∧ baseConcat (ccFragments twoCharText [dupSpanA]) = twoCharText :=
  ⟨by decide, C1_claim twoCharText [dupSpanA] (by decide)⟩

/-- Claim C2, counterexample: two valid spans with the identical range
`[0,2)` over the text `"ab"` produce two highlighted fragments, not exactly
one. -/
theorem C2_counterexample :
    (highlights (ccFragments twoCharText [dupSpanA, dupSpanB])).length ≠ 1 := by
  decide

/-- Claim C2 (amended): for two valid spans with identical start and end,
`create_colored_text` emits a highlighted fragment for each of them — the
first tagged with the first span's class and the second, immediately after,
with the second span's class; the later span contributes no additional
plain text, but it does contribute its own highlighted fragment duplicating
the range. -/
theorem C2_claim (text : List Char) (s t : Int)
    (c₁ c₂ tx₁ tx₂ : String) (a₁ a₂ : List (String × String))
    (h0 : 0 ≤ s) (hst : s < t) (hlen : t ≤ (text.length : Int)) :
    highlights (ccFragments text
      [⟨c₁, tx₁, a₁, some s, some t⟩, ⟨c₂, tx₂, a₂, some s, some t⟩]) =
      [(pySlice text s t, c₁), (pySlice text s t, c₂)] := by
  set r₁ : SpanRec := ⟨c₁, tx₁, a₁, some s, some t⟩ with hr₁
  set r₂ : SpanRec := ⟨c₂, tx₂, a₂, some s, some t⟩ with hr₂
  have hv₁ : ccValid r₁ = true := by
    simp [ccValid, hr₁]
    omega
  have hv₂ : ccValid r₂ = true := by
    simp [ccValid, hr₂]
    omega
  have he₁ : ccEmit (text.length : Int) r₁ = true := by
    simp [ccEmit, hr₁, startVal, endVal]
    omega
  have he₂ : ccEmit (text.length : Int) r₂ = true := by
    simp [ccEmit, hr₂, startVal, endVal]
    omega
  have hfl : [r₁, r₂].filter ccValid = [r₁, r₂] := by
    simp [List.filter_cons, hv₁, hv₂]
  have hsort : List.insertionSort byStart [r₁, r₂] = [r₁, r₂] := by
    simp only [List.insertionSort, List.orderedInsert]
    rw [if_pos]
    simp [byStart, hr₁, hr₂, startVal]
  unfold ccFragments
  rw [hfl]
  rw [if_neg (by simp), hsort, highlights_ccLoop]
  simp [List.filter_cons, he₁, he₂, startVal, endVal, hr₁, hr₂]

/-- Claim C2, witness instance of the amended theorem at a concrete text and
range. -/
theorem C2_witness :
    highlights (ccFragments fiveCharText
      [⟨"verb", "bc", [], some 1, some 3⟩, ⟨"phrasal_verb", "bc", [], some 1, some 3⟩]) =
      [(pySlice fiveCharText 1 3, "verb"), (pySlice fiveCharText 1 3, "phrasal_verb")] :=
  C2_claim fiveCharText 1 3 "verb" "phrasal_verb" "bc" "bc" [] []
    (by decide) (by decide) (by decide)

/-- Claim C3, counterexample: on the text `"abcde"` with valid spans
`[0,4)` and `[1,2)`, the fragment sequence of
`create_simple_html_visualization` (which advances the cursor with
`last_pos = end`) differs from the sequence the claimed policy
`last_pos = max(last_pos, end)` would produce — after the nested span the
code's cursor moves backwards to `2` and re-emits `"cde"`, while the
claimed policy keeps the cursor at `4` and emits only `"e"`. -/
theorem C3_counterexample :
    svFragments fiveCharText [wideSpan, nestedSpan] ≠
      svFragmentsMaxAdvance fiveCharText [wideSpan, nestedSpan] := by
  decide

/-- Claim C3 (amended): in `create_colored_text` the cursor is advanced as
`last_pos = max(last_pos, span.end)`, so that loop's cursor never moves
backwards; but a span whose region was already consumed still contributes
its own highlighted fragment — every span passing the in-loop validity
check produces exactly one highlighted fragment.  (In
`create_simple_html_visualization` the cursor is instead set to `span.end`
unconditionally and can move backwards, as the counterexample shows.) -/
theorem C3_claim (text : List Char) (lp : Int) (l : List SpanRec) :
    lp ≤ ccLoopLastPos text lp l ∧
      (highlights (ccLoop text lp l)).length =
        (l.filter (ccEmit (text.length : Int))).length :=
  ⟨ccLoopLastPos_mono text l lp, by rw [highlights_ccLoop]; exact List.length_map _ _⟩

/-- Claim C4: `create_colored_text` emits a highlighted fragment exactly for
the spans with present offsets satisfying `0 ≤ start < end ≤ length text`
(as a multiset, one fragment per such span); when no span is valid the
output is exactly the source text with zero highlighted fragments; and a
span failing the validity check is skipped without contributing any
fragment, plain or highlighted. -/
theorem C4_claim (text : List Char) (es : List SpanRec) :
    (highlights (ccFragments text es)).Perm
        ((es.filter (fullValid (text.length : Int))).map
          (fun r => (pySlice text (startVal r) (endVal r), r.cls)))
    ∧ (es.filter (fullValid (text.length : Int)) = [] →
        create_colored_text text es = String.mk text)
    ∧ ∀ (lp : Int) (r : SpanRec) (rest : List SpanRec),
        ccEmit (text.length : Int) r = false →
        ccLoop text lp (r :: rest) = ccLoop text lp rest := by
  refine ⟨?_, ?_, ?_⟩
  · unfold ccFragments
    by_cases hv : (es.filter ccValid).isEmpty
    · rw [if_pos hv]
      have hnil : es.filter ccValid = [] := List.isEmpty_iff.mp hv
      have hfull : es.filter (fullValid (text.length : Int)) = [] := by
        rw [← filter_ccValid_filter_ccEmit, hnil]
        rfl
      rw [hfull]
      simp [highlights]
    · rw [if_neg hv, highlights_ccLoop]
      have hperm := (List.perm_insertionSort byStart (es.filter ccValid)).filter
        (ccEmit (text.length : Int))
      rw [filter_ccValid_filter_ccEmit] at hperm
      exact hperm.map _
  · intro hfull
    unfold create_colored_text ccFragments
    by_cases hv : (es.filter ccValid).isEmpty
    · rw [if_pos hv]
      simp [renderAll, renderFrag]
    · rw [if_neg hv]
      have hskip : ∀ r ∈ List.insertionSort byStart (es.filter ccValid),
          ccEmit (text.length : Int) r = false := by
        intro r hr
        have hmem := (List.mem_insertionSort byStart).mp hr
        have hcv : ccValid r = true := List.of_mem_filter hmem
        have hnf : ¬ fullValid (text.length : Int) r = true :=
          (List.filter_eq_nil_iff.mp hfull) r (List.mem_of_mem_filter hmem)
        rw [fullValid_eq] at hnf
        simpa [hcv] using hnf
      rw [ccLoop_all_skip text _ hskip 0]
      simp only [ccLoop]
      by_cases hl : (0 : Int) < (text.length : Int)
      · rw [if_pos hl]
        simp [renderAll, renderFrag]
      · rw [if_neg hl]
        have htext : text = [] := List.length_eq_zero.mp (by omega)
        subst htext
        rfl
  · intro lp r rest h
    simp [ccLoop, h]

/-- Claim C4, witness: a span that passes the outer filter but whose end
exceeds the text length is skipped inside the loop and the whole source
text comes back unhighlighted; a skipped span also leaves the loop output
unchanged. -/
theorem C4_witness :
    create_colored_text twoCharText [⟨"verb", "x", [], some 0, some 99⟩] =
        String.mk twoCharText
    ∧ ccLoop twoCharText 0 [⟨"verb", "x", [], some 0, some 99⟩] = ccLoop twoCharText 0 [] :=
  ⟨(C4_claim twoCharText [⟨"verb", "x", [], some 0, some 99⟩]).2.1 (by decide),
   (C4_claim twoCharText [⟨"verb", "x", [], some 0, some 99⟩]).2.2 0
     ⟨"verb", "x", [], some 0, some 99⟩ [] (by decide)⟩

theorem totalChars_go (es : List Extraction) :
    ∀ acc : Int,
      es.foldl (fun t e => t + (match e.char_interval with
        | some ci => ci.end_pos - ci.start_pos
        | none => 0)) acc = acc + specCoverSum es := by
  induction es with
  | nil =>
    intro acc
    simp [specCoverSum]
  | cons e rest ih =>
    intro acc
    rcases hci : e.char_interval with _ | ci <;>
      simp [List.foldl_cons, hci, specCoverSum, List.filterMap_cons, ih] <;>
      simp [specCoverSum] at ih ⊢ <;> omega

theorem totalChars_eq_specCoverSum (es : List Extraction) :
    totalChars es = specCoverSum es := by
  have h := totalChars_go es 0
  simpa [totalChars] using h

set_option maxRecDepth 100000 in
/-- Claim C5: `get_statistics` computes the coverage ratio as the sum of
`end − start` over the spans whose offsets are present (missing intervals
contribute zero, which equals excluding them), divided by the length of the
source text and formatted as a percentage with one decimal place through
Python float arithmetic, or `"0%"` when the source text is empty; in
particular a single span `[0,5)` over a 10-character text yields `"50.0%"`
(and 23 covered characters of an 80-character text print `"28.7%"`, the
float pipeline result, not the exact-rational `"28.8%"`). -/
theorem C5_claim (doc : AnnotatedDocument) :
    ((get_statistics doc).coverage =
      if doc.text.length = 0 then "0%"
      else fmtDouble1 (floatMul100
        (floatDivInt (specCoverSum doc.extractions) doc.text.length)) ++ "%")
    ∧ (get_statistics coverageExampleDoc).coverage = "50.0%"
    ∧ (get_statistics emptyTextDoc).coverage = "0%"
    ∧ (get_statistics ratioExampleDoc).coverage = "28.7%" := by
  refine ⟨?_, by decide, by decide, by decide⟩
  simp only [get_statistics, totalChars_eq_specCoverSum]
  by_cases h : doc.text.length = 0
  · simp [h]
  · have hpos : doc.text.length > 0 := Nat.pos_of_ne_zero h
    simp [h, hpos]

theorem groupInsert_dictGet (m : List (String × List SpanRec)) (k k' : String) (e : SpanRec) :
    dictGet (groupInsert m k' e) k =
      if k' == k then
        (match dictGet m k with
         | some l => some (l ++ [e])
         | none => some [e])
      else dictGet m k := by
  induction m with
  | nil =>
    cases hk : (k' == k) <;> simp [groupInsert, dictGet, hk]
  | cons p rest ih =>
    obtain ⟨k₀, v⟩ := p
    simp only [groupInsert]
    cases h1 : (k₀ == k')
    · rw [if_neg (by simp [h1])]
      simp only [dictGet]
      cases h2 : (k₀ == k)
      · simp [h2, ih]
      · have hk : (k' == k) = false := by
          have e1 : k₀ ≠ k' := by simpa using h1
          have e2 : k₀ = k := by simpa using h2
          simp
          intro hc
          exact e1 (e2.trans hc.symm)
        simp [h2, hk]
    · rw [if_pos (by simp [h1])]
      simp only [dictGet]
      cases h2 : (k₀ == k)
      · have hk : (k' == k) = false := by
          have e1 : k₀ = k' := by simpa using h1
          have e2 : k₀ ≠ k := by simpa using h2
          simp
          intro hc
          exact e2 (e1.trans hc)
        simp [h2, hk]
      · have hk : (k' == k) = true := by
          have e1 : k₀ = k' := by simpa using h1
          have e2 : k₀ = k := by simpa using h2
          simp [← e1, e2]
        simp [h2, hk]

theorem display_fold_dictGet (gb k : String) (es : List SpanRec) :
    ∀ acc : List (String × List SpanRec),
      dictGet (es.foldl (fun m e => groupInsert m (groupKey gb e) e) acc) k =
        (match dictGet acc k with
         | some l => some (l ++ es.filter (fun e => groupKey gb e == k))
         | none =>
            if (es.filter (fun e => groupKey gb e == k)).isEmpty then none
            else some (es.filter (fun e => groupKey gb e == k))) := by
  induction es with
  | nil =>
    intro acc
    rcases h : dictGet acc k with _ | l <;> simp [h]
  | cons e rest ih =>
    intro acc
    rw [List.foldl_cons, ih, groupInsert_dictGet, List.filter_cons]
    cases hk : (groupKey gb e == k)
    · simp only [Bool.false_eq_true, if_false]
    · simp only [if_true]
      rcases h : dictGet acc k with _ | l <;> simp [h]

/-- Claim C6: for every list of normalized records and every grouping key,
the group stored under a key by `format_result_for_display` is exactly the
sub-list of input records mapping to that key, in their original relative
order (stable grouping, not sorted); grouping by 难度 (difficulty) uses the
`level` attribute with the 未知 (unknown) default when it is absent. -/
theorem C6_claim (es : List SpanRec) (gb k : String) :
    (dictGet (format_result_for_display es gb) k =
      if (es.filter (fun e => groupKey gb e == k)).isEmpty then none
      else some (es.filter (fun e => groupKey gb e == k)))
    ∧ ∀ e : SpanRec, e.attrs.lookup "level" = none → groupKey "难度" e = "未知" := by
  constructor
  · have h := display_fold_dictGet gb k es []
    simpa [format_result_for_display, dictGet] using h
  · intro e h
    rw [groupKey, if_neg (by decide), if_pos rfl, h]
    rfl

/-- Claim C6, witness: a record with no `level` attribute falls into the
未知 bucket when grouping by difficulty. -/
theorem C6_witness : groupKey "难度" plainRec = "未知" :=
  (C6_claim [] "难度" "x").2 plainRec (by decide)

/-- Claim C7: an extraction without a `char_interval` is normalized by
`format_extractions` to a record with `start = end = 0` (no exception —
`formatOne` is total), that degenerate record fails the renderer validity
filter of `create_colored_text` (`end > start` is false at `(0,0)`), and
rendering it alone highlights nothing. -/
theorem C7_claim (doc : AnnotatedDocument) (e : Extraction)
    (hmem : e ∈ doc.extractions) (hnone : e.char_interval = none) :
    formatOne e ∈ format_extractions doc
    ∧ (formatOne e).start? = some 0
    ∧ (formatOne e).end? = some 0
    ∧ ccValid (formatOne e) = false
    ∧ ∀ text : List Char, highlights (ccFragments text [formatOne e]) = [] := by
  refine ⟨List.mem_map_of_mem formatOne hmem, ?_, ?_, ?_, ?_⟩
  · simp [formatOne, hnone]
  · simp [formatOne, hnone]
  · simp [ccValid, formatOne, hnone]
  · intro text
    have hval : ccValid (formatOne e) = false := by simp [ccValid, formatOne, hnone]
    simp [ccFragments, List.filter_cons, hval, highlights]

/-- Claim C7, witness: the concrete no-interval extraction normalizes to the
degenerate `(0,0)` record, is rejected by the validity filter and renders no
highlight. -/
theorem C7_witness :
    formatOne noIntervalExtraction ∈ format_extractions noIntervalDoc
    ∧ (formatOne noIntervalExtraction).start? = some 0
    ∧ (formatOne noIntervalExtraction).end? = some 0
    ∧ ccValid (formatOne noIntervalExtraction) = false
    ∧ highlights (ccFragments ['h', 'i'] [formatOne noIntervalExtraction]) = [] := by
  have h := C7_claim noIntervalDoc noIntervalExtraction (by decide) rfl
  exact ⟨h.1, h.2.1, h.2.2.1, h.2.2.2.1, h.2.2.2.2 ['h', 'i']⟩

theorem typeLine_ne_self (x : String) : "类型: " ++ x ≠ x := by
  intro h
  have h2 := congrArg String.length h
  rw [String.length_append] at h2
  have h3 : ("类型: " : String).length = 4 := rfl
  omega

theorem typeLine_ne_roleLine (x y : String) : "类型: " ++ x ≠ "语法功能: " ++ y := by
  intro h
  have h2 := congrArg String.data h
  rw [String.data_append, String.data_append] at h2
  have e1 : ("类型: " : String).data = ['类', '型', ':', ' '] := rfl
  have e2 : ("语法功能: " : String).data = ['语', '法', '功', '能', ':', ' '] := rfl
  rw [e1, e2] at h2
  simp only [List.cons_append, List.cons.injEq] at h2
  exact absurd h2.1 (by decide)

theorem typeLine_ne_meaningLine (x y : String) : "类型: " ++ x ≠ "含义: " ++ y := by
  intro h
  have h2 := congrArg String.data h
  rw [String.data_append, String.data_append] at h2
  have e1 : ("类型: " : String).data = ['类', '型', ':', ' '] := rfl
  have e2 : ("含义: " : String).data = ['含', '义', ':', ' '] := rfl
  rw [e1, e2] at h2
  simp only [List.cons_append, List.cons.injEq] at h2
  exact absurd h2.1 (by decide)

/-- Claim C8: the tooltip parts composed by
`create_simple_html_visualization` are the class label, followed by a
grammatical-role line exactly when `role` is present, a meaning line exactly
when `meaning` is present, and a type line exactly when `type` is present
and textually different from the class tag; the composition starts with the
class label, and when `attributes["type"]` equals the class tag no type line
occurs anywhere in the tooltip. -/
theorem C8_claim (cls : String) (attrs : List (String × String)) :
    (simpleTooltipParts cls attrs =
      [cls]
        ++ (match attrs.lookup "role" with
            | some v => ["语法功能: " ++ v]
            | none => [])
        ++ (match attrs.lookup "meaning" with
            | some v => ["含义: " ++ v]
            | none => [])
        ++ (match attrs.lookup "type" with
            | some v => if v = cls then [] else ["类型: " ++ v]
            | none => []))
    ∧ (simpleTooltipParts cls attrs).head? = some cls
    ∧ (attrs.lookup "type" = some cls → ("类型: " ++ cls) ∉ simpleTooltipParts cls attrs) := by
  have hmain : simpleTooltipParts cls attrs =
      [cls]
        ++ (match attrs.lookup "role" with
            | some v => ["语法功能: " ++ v]
            | none => [])
        ++ (match attrs.lookup "meaning" with
            | some v => ["含义: " ++ v]
            | none => [])
        ++ (match attrs.lookup "type" with
            | some v => if v = cls then [] else ["类型: " ++ v]
            | none => []) := by
    rcases h3 : attrs.lookup "type" with _ | t
    · rcases h1 : attrs.lookup "role" with _ | r <;>
        rcases h2 : attrs.lookup "meaning" with _ | m <;>
        simp [simpleTooltipParts, h1, h2, h3]
    · by_cases ht : t = cls <;>
        rcases h1 : attrs.lookup "role" with _ | r <;>
        rcases h2 : attrs.lookup "meaning" with _ | m <;>
        simp [simpleTooltipParts, h1, h2, h3, ht]
  refine ⟨hmain, ?_, ?_⟩
  · rw [hmain]
    rfl
  · intro ht hmem
    rw [hmain] at hmem
    simp only [ht, ite_true] at hmem
    simp only [List.append_nil, List.mem_append] at hmem
    rcases hmem with (hmem | hmem) | hmem
    · simp only [List.mem_singleton] at hmem
      exact typeLine_ne_self cls hmem
    · rcases h1 : attrs.lookup "role" with _ | r <;> rw [h1] at hmem
      · simp at hmem
      · simp only [List.mem_singleton] at hmem
        exact typeLine_ne_roleLine cls r hmem
    · rcases h2 : attrs.lookup "meaning" with _ | m <;> rw [h2] at hmem
      · simp at hmem
      · simp only [List.mem_singleton] at hmem
        exact typeLine_ne_meaningLine cls m hmem

/-- Claim C8, witness: with `attributes = {type: verb}` on class `verb`, the
type line is suppressed. -/
theorem C8_witness : ("类型: " ++ "verb") ∉ simpleTooltipParts "verb" [("type", "verb")] :=
  (C8_claim "verb" [("type", "verb")]).2.2 (by decide)

theorem infix_renderAll_of_mem (cm : List (String × String)) (fs : List Frag) (f : Frag)
    (h : f ∈ fs) : (renderFrag cm f).data <:+: (renderAll cm fs).data := by
  induction fs with
  | nil => cases h
  | cons g gs ih =>
    rcases List.mem_cons.mp h with rfl | h2
    · refine ⟨[], (renderAll cm gs).data, ?_⟩
      simp [renderAll, String.data_append]
    · obtain ⟨p, q, hpq⟩ := ih h2
      refine ⟨(renderFrag cm g).data ++ p, q, ?_⟩
      rw [renderAll, String.data_append, ← hpq]
      simp [List.append_assoc]

theorem slice_infix_renderFrag_hl (cm : List (String × String)) (s : List Char)
    (cls tt : String) : s <:+: (renderFrag cm (Frag.hl s cls tt)).data := by
  refine ⟨("<span class=\"tooltip-wrapper\" style=\"background-color: " ++
      colorOf cm cls ++ "; padding: 2px 4px; border-radius: 3px;\">").data,
    ("<span class=\"tooltip-text\">" ++ tt ++ "</span></span>").data, ?_⟩
  simp [renderFrag, String.data_append]

theorem hl_mem_ccLoop (text : List Char) (l : List SpanRec) :
    ∀ (lp : Int) (r : SpanRec), r ∈ l → ccEmit (text.length : Int) r = true →
    Frag.hl (pySlice text (startVal r) (endVal r)) r.cls (ccTooltip r) ∈ ccLoop text lp l := by
  induction l with
  | nil =>
    intro lp r h
    cases h
  | cons g gs ih =>
    intro lp r hmem hemit
    rcases List.mem_cons.mp hmem with rfl | h2
    · simp only [ccLoop, hemit, if_true]
      simp [List.mem_append]
    · by_cases hg : ccEmit (text.length : Int) g = true
      · simp only [ccLoop, hg, if_true, List.mem_append]
        exact Or.inr (ih _ r h2 hemit)
      · simp only [ccLoop, hg, Bool.false_eq_true, if_false]
        exact ih lp r h2 hemit

set_option maxRecDepth 10000 in
/-- Claim C9, counterexample: over the source text `"a&b"` with one valid
span covering it, the markup produced by `create_colored_text` contains the
raw text `"a&b"` verbatim — the `&` is embedded without escaping (no
`"a&amp;b"` appears anywhere in the output), so markup-significant
characters of the source do appear unescaped. -/
theorem C9_counterexample :
    ("a&b".data <:+: (create_colored_text ampText [ampSpan]).data)
    ∧ ¬ ("a&amp;b".data <:+: (create_colored_text ampText [ampSpan]).data) := by
  decide

/-- Claim C9 (amended): `create_colored_text` performs no escaping — the
base text of a highlighted run is interpolated verbatim into the final
markup, so for any valid span the raw slice `text[start:end]` occurs as a
contiguous substring of the output string. -/
theorem C9_claim (text : List Char) (s t : Int) (c tx : String)
    (a : List (String × String))
    (h0 : 0 ≤ s) (hst : s < t) (hlen : t ≤ (text.length : Int)) :
    pySlice text s t <:+: (create_colored_text text [⟨c, tx, a, some s, some t⟩]).data := by
  set r : SpanRec := ⟨c, tx, a, some s, some t⟩ with hr
  have hv : ccValid r = true := by
    simp [ccValid, hr]
    omega
  have hemit : ccEmit (text.length : Int) r = true := by
    simp [ccEmit, hr, startVal, endVal]
    omega
  have hfl : [r].filter ccValid = [r] := by
    simp [List.filter_cons, hv]
  have hsort : List.insertionSort byStart [r] = [r] := by
    simp [List.insertionSort, List.orderedInsert]
  unfold create_colored_text ccFragments
  rw [hfl, if_neg (by simp), hsort]
  have hmem := hl_mem_ccLoop text [r] 0 r (by simp) hemit
  have h1 := infix_renderAll_of_mem defaultColorMap _ _ hmem
  have h2 := slice_infix_renderFrag_hl defaultColorMap
    (pySlice text (startVal r) (endVal r)) r.cls (ccTooltip r)
  have h3 := h2.trans h1
  have hs : startVal r = s := by simp [hr, startVal]
  have he : endVal r = t := by simp [hr, endVal]
  rw [hs, he] at h3
  exact h3

/-- Claim C9, witness instance of the amended theorem: the slice `"a&b"`
occurs verbatim in the rendered markup. -/
theorem C9_witness :
    pySlice ampText 0 3 <:+:
      (create_colored_text ampText [⟨"verb", "a&b", [], some 0, some 3⟩]).data :=
  C9_claim ampText 0 3 "verb" "a&b" [] (by decide) (by decide) (by decide)

theorem groupKey_other (gb : String) (h1 : gb ≠ "类型") (h2 : gb ≠ "难度") (e : SpanRec) :
    groupKey gb e = "全部" := by
  rw [groupKey, if_neg h1, if_neg h2]

theorem fold_allKey (es : List SpanRec) :
    ∀ l : List SpanRec,
      es.foldl (fun m e => groupInsert m "全部" e) [("全部", l)] = [("全部", l ++ es)] := by
  induction es with
  | nil =>
    intro l
    simp
  | cons e rest ih =>
    intro l
    rw [List.foldl_cons]
    have hstep : groupInsert [("全部", l)] "全部" e = [("全部", l ++ [e])] := by
      simp [groupInsert]
    rw [hstep, ih]
    simp

/-- Claim C10, counterexample: for the empty extraction list and an
unrecognized grouping key, `format_result_for_display` returns the empty
mapping, which does not contain the key 全部 at all. -/
theorem C10_counterexample :
    format_result_for_display ([] : List SpanRec) "foo" ≠ [("全部", ([] : List SpanRec))] := by
  decide

/-- Claim C10 (amended): for every grouping key other than 类型 and 难度,
`format_result_for_display` raises no exception and returns the mapping
with the single key 全部 holding the entire input list in original order
when the input is non-empty, and the empty mapping (with no 全部 key) when
the input is empty. -/
theorem C10_claim (es : List SpanRec) (gb : String)
    (h1 : gb ≠ "类型") (h2 : gb ≠ "难度") :
    (es = [] → format_result_for_display es gb = [])
    ∧ (es ≠ [] → format_result_for_display es gb = [("全部", es)]) := by
  have hf : (fun (m : List (String × List SpanRec)) (e : SpanRec) =>
      groupInsert m (groupKey gb e) e) = fun m e => groupInsert m "全部" e := by
    funext m e
    rw [groupKey_other gb h1 h2]
  constructor
  · intro he
    subst he
    rfl
  · intro he
    rcases es with _ | ⟨e, rest⟩
    · exact absurd rfl he
    · unfold format_result_for_display
      rw [hf, List.foldl_cons]
      have hstep : groupInsert [] "全部" e = [("全部", [e])] := rfl
      rw [hstep, fold_allKey]
      simp

/-- Claim C10, witness instance of the amended theorem: a one-record list
under an unrecognized key lands entirely under 全部. -/
theorem C10_witness :
    format_result_for_display [plainRec] "foo" = [("全部", [plainRec])] :=
  (C10_claim [plainRec] "foo" (by decide) (by decide)).2 (by simp)
